import Mathlib

/-!
Shallow embedding of `src/ScrapeRMP.py` (a RateMyProfessors scraper).

The embedding models:
* JSON scalar/object values (`Val`) and records (`Record`, an association
  list mirroring a Python dict with its insertion order);
* the dict operations used by the source (`getKey`, `setKey`, `delKey`,
  `hasKey`), with Python dict semantics on unique keys;
* Python substring test (`strContains`) used by `school_valid`;
* the two cursor paginators `get_profs` (lines 61-142) and
  `get_prof_reviews` (lines 175-228), with the HTTP layer abstracted by an
  environment mapping the ordinal of each GraphQL POST to its outcome
  (cursors are opaque and only echoed back, so the request ordinal
  determines the served page in any deterministic run);
* the thread-pool dispatcher `get_all_prof_reviews` (lines 231-255): each
  unit of work is abstracted by its outcome (`crashed` for a raised
  exception / timeout of `future.result`, `finished data err` for a
  returned `{"data": ..., "error": ...}` value), and the fan-in fold over
  futures, which the single orchestrating thread performs in submission
  order, is modelled directly;
* the batch orchestrator `all_prof_reviews` (lines 258-287) and the
  final polars `DataFrame.unique()` deduplication (`unique`).

While-loops are embedded with explicit fuel: `none` means the fuel ran
out, and termination statements quantify over all sufficiently large fuel
values.  An uncaught Python exception escaping `get_profs` is modelled by
`Except.error ()`; in `get_prof_reviews` every exception of the pagination
step is caught (source lines 221-225) and surfaces as the `error := true`
flag.  Both paginator models additionally return the number of GraphQL
POSTs issued, so that claims about requests never being sent are statable.
-/

namespace RMP

/-- A JSON value as used by the scraper: an opaque scalar, or a one-level
nested object (the only nested object the code touches is `node["school"]`,
whose own fields are scalars). -/
inductive Val where
  | prim (s : String)
  | obj (fields : List (String × String))
deriving DecidableEq

/-- A Python dict holding one entity (a professor node, a review node, a
page-info object ...): an association list in insertion order. -/
abbrev Record := List (String × Val)

/-- One element of a GraphQL `edges` array: a wrapper object with a `node`
field. -/
structure Edge where
  node : Record
deriving DecidableEq

/-- Dict lookup `d[k]` (first matching key; Python dicts have unique keys). -/
def getKey : List (String × α) → String → Option α
  | [], _ => none
  | (k', v) :: rest, k => if k' = k then some v else getKey rest k

/-- Python `k in d`. -/
def hasKey (l : List (String × α)) (k : String) : Bool :=
  (getKey l k).isSome

/-- Dict assignment `d[k] = v`: replace the value of an existing key in
place, otherwise append the new key at the end (Python insertion order). -/
def setKey : List (String × α) → String → α → List (String × α)
  | [], k, v => [(k, v)]
  | (k', v') :: rest, k, v =>
    if k' = k then (k, v) :: rest else (k', v') :: setKey rest k v

/-- Dict deletion `del d[k]`: remove the key's entry (a dict holds at most
one entry per key, so removing every matching pair coincides with Python
on all reachable states). -/
def delKey : List (String × α) → String → List (String × α)
  | [], _ => []
  | (k', v') :: rest, k => if k' = k then delKey rest k else (k', v') :: delKey rest k

/-- Does `hay` start with `needle`? (helper for the substring test). -/
def strStarts : List Char → List Char → Bool
  | [], _ => true
  | _ :: _, [] => false
  | a :: as, b :: bs => a = b && strStarts as bs

/-- Python `needle in hay` on strings, as character lists. -/
def strContains (needle : List Char) : List Char → Bool
  | [] => needle.isEmpty
  | c :: rest => strStarts needle (c :: rest) || strContains needle rest

/-- The "not found" marker searched for in the probe response
(`ScrapeRMP.py` line 56). -/
def errMarker : String := "We couldn&#x27;t find the school you were looking for"

/-- The "no ratings yet" marker searched for in the probe response
(`ScrapeRMP.py` line 57). -/
def noRatingsMarker : String := "have any ratings yet"

/-- `school_valid` (lines 43-58): classify a school id from the probe
response body; invalid iff the body contains the error marker or the
no-ratings marker. -/
def school_valid (body : String) : Bool :=
  !(strContains errMarker.data body.data || strContains noRatingsMarker.data body.data)

/-- The `count` field of the variables payload built by `get_profs`
(line 104): the `page_size` parameter, passed through without clamping. -/
def profs_request_count (page_size : Nat) : Nat := page_size

/-- The `count` field of the variables payload built by `get_prof_reviews`
(line 202): `min(1_000, num_reviews)`. -/
def reviews_request_count (num_reviews : Nat) : Nat := min 1000 num_reviews

/-- The page-size ceiling the service tolerates: the clamping constant of
`get_prof_reviews` (line 202), also the default `page_size` of
`get_profs` (line 61). -/
def service_max_count : Nat := 1000

/-- Default value of the `page_size` parameter of `get_profs` (line 61),
used by its only in-repo caller `all_profs` (line 156). -/
def default_profs_page_size : Nat := 1000

/-- Processing of one edge in `get_profs` (lines 127-134): read
`__typename` (a missing key raises, uncaught), skip the edge when it is
not `Teacher`, otherwise promote `school.id` / `school.name` into
`schoolId` / `schoolName` and delete `school` (missing nested keys raise,
uncaught, since the loop sits outside the `try`). -/
def processProfEdge (e : Edge) : Except Unit (Option Record) :=
  match getKey e.node "__typename" with
  | none => .error ()
  | some tv =>
    if tv = Val.prim "Teacher" then
      match getKey e.node "school" with
      | some (Val.obj sch) =>
        match getKey sch "id", getKey sch "name" with
        | some sid, some sname =>
          .ok (some (delKey
            (setKey (setKey e.node "schoolId" (Val.prim sid)) "schoolName" (Val.prim sname))
            "school"))
        | _, _ => .error ()
      | _ => .error ()
    else .ok none

/-- The `for edge in edges` loop of `get_profs` (lines 127-134), appending
reshaped teacher nodes to the accumulator; an exception escapes the whole
function. -/
def processProfEdges (acc : List Record) : List Edge → Except Unit (List Record)
  | [] => .ok acc
  | e :: rest =>
    match processProfEdge e with
    | .error () => .error ()
    | .ok none => processProfEdges acc rest
    | .ok (some r) => processProfEdges (acc ++ [r]) rest

/-- Outcome of one GraphQL POST of `get_profs`, as observed by the code:
`transportErr` = `session.post` itself raises (line 110, outside the
`try`, so the exception escapes `get_profs`); `parseErr` = `.json()` or
the envelope key path raises inside the `try` (lines 112-125, the partial
result list is returned); `okPage` = envelope parsed, carrying the edges
and, when the `pageInfo` dict has the `hasNextPage`/`endCursor` keys, the
pair of them (`none` models a `pageInfo` lacking them: line 136 then
raises outside the `try`). -/
inductive ProfResp where
  | transportErr
  | parseErr
  | okPage (edges : List Edge) (pageInfo : Option (Bool × String))

/-- Has the optional page cap of `get_profs` been reached (lines 139-140:
`pages is not None and pages_so_far >= pages`)? -/
def capReached : Option Nat → Nat → Bool
  | none, _ => false
  | some c, n => c ≤ n

/-- The `while has_more` loop of `get_profs` (lines 103-142), with fuel.
State: accumulated results, ordinal of the next request, pages fetched so
far.  Returns the function outcome (`Except.error ()` = an uncaught
exception escapes) paired with the number of GraphQL POSTs issued. -/
def get_profs_loop (env : Nat → ProfResp) (pagesCap : Option Nat) :
    Nat → List Record → Nat → Nat → Option (Except Unit (List Record) × Nat)
  | 0, _, _, _ => none
  | fuel + 1, acc, reqIdx, pagesSoFar =>
    match env reqIdx with
    | .transportErr => some (.error (), reqIdx + 1)
    | .parseErr => some (.ok acc, reqIdx + 1)
    | .okPage edges pageInfo =>
      match processProfEdges acc edges with
      | .error () => some (.error (), reqIdx + 1)
      | .ok acc' =>
        match pageInfo with
        | none => some (.error (), reqIdx + 1)
        | some (hasNext, _endCur) =>
          if capReached pagesCap (pagesSoFar + 1) then some (.ok acc', reqIdx + 1)
          else if hasNext then get_profs_loop env pagesCap fuel acc' (reqIdx + 1) (pagesSoFar + 1)
          else some (.ok acc', reqIdx + 1)

/-- `get_profs` (lines 61-142): probe the school first and return the empty
list without any GraphQL POST when invalid, otherwise run the pagination
loop from an empty accumulator. -/
def get_profs (probeBody : String) (env : Nat → ProfResp) (pagesCap : Option Nat)
    (fuel : Nat) : Option (Except Unit (List Record) × Nat) :=
  if school_valid probeBody then get_profs_loop env pagesCap fuel [] 0 0
  else some (.ok [], 0)

/-- Processing of one review node in `get_prof_reviews` (lines 210-215):
attach `profId`, delete `thumbs` (a missing `thumbs` key raises `KeyError`,
which the surrounding `try` catches), delete `teacherNote` only when
present. -/
def processReviewNode (profId : String) (node : Record) : Except Unit Record :=
  let n1 := setKey node "profId" (Val.prim profId)
  if hasKey n1 "thumbs" then
    let n2 := delKey n1 "thumbs"
    .ok (if hasKey n2 "teacherNote" then delKey n2 "teacherNote" else n2)
  else .error ()

/-- One edge of the `ratings.edges` array: unwrap the `node` field
(line 210) and reshape it. -/
def processReviewEdge (profId : String) (e : Edge) : Except Unit Record :=
  processReviewNode profId e.node

/-- The `for node in nodes` loop of `get_prof_reviews` (lines 209-215):
nodes are appended one at a time, so when a node raises the nodes already
processed stay in the accumulator and the `Bool` reports that the step
raised. -/
def processReviewEdges (profId : String) : List Record → List Edge → List Record × Bool
  | acc, [] => (acc, false)
  | acc, e :: rest =>
    match processReviewEdge profId e with
    | .error () => (acc, true)
    | .ok r => processReviewEdges profId (acc ++ [r]) rest

/-- Outcome of one GraphQL POST of `get_prof_reviews`.  Everything in the
loop body sits inside one `try` (lines 205-219), so `fail` covers a raising
`session.post`, `.json()` or envelope key path; `okPage` carries the edges
and, when the `pageInfo` dict has the `hasNextPage`/`endCursor` keys, the
pair of them (`none` models a `pageInfo` lacking them, which also raises
inside the `try`, after the page's nodes were already appended). -/
inductive ReviewResp where
  | fail
  | okPage (edges : List Edge) (pageInfo : Option (Bool × String))

/-- The `while keep_going` loop of `get_prof_reviews` (lines 199-225), with
fuel.  Any caught exception returns the accumulated data with the error
flag set (line 225).  Returns `(data, error)` paired with the number of
GraphQL POSTs issued. -/
def get_prof_reviews_loop (env : Nat → ReviewResp) (profId : String) :
    Nat → List Record → Nat → Option ((List Record × Bool) × Nat)
  | 0, _, _ => none
  | fuel + 1, acc, reqIdx =>
    match env reqIdx with
    | .fail => some ((acc, true), reqIdx + 1)
    | .okPage edges pageInfo =>
      match processReviewEdges profId acc edges with
      | (acc', true) => some ((acc', true), reqIdx + 1)
      | (acc', false) =>
        match pageInfo with
        | none => some ((acc', true), reqIdx + 1)
        | some (hasNext, _endCur) =>
          if hasNext then get_prof_reviews_loop env profId fuel acc' (reqIdx + 1)
          else some ((acc', false), reqIdx + 1)

/-- `get_prof_reviews` (lines 175-228): run the pagination loop from an
empty accumulator (the `num_reviews` argument only enters the request
payload, see `reviews_request_count`). -/
def get_prof_reviews (env : Nat → ReviewResp) (profId : String) (fuel : Nat) :
    Option ((List Record × Bool) × Nat) :=
  get_prof_reviews_loop env profId fuel [] 0

/-- What `future.result(timeout=20)` yields for one unit of work in
`get_all_prof_reviews` (line 244): `crashed` = the future raised or timed
out; `finished data err` = `get_prof_reviews` returned
`{"data": data, "error": err}`. -/
inductive UnitOutcome where
  | crashed
  | finished (data : List Record) (err : Bool)
deriving DecidableEq

/-- A unit of work failed when its future raised / timed out or its run
returned with the error flag set. -/
def isFailed : UnitOutcome → Bool
  | .crashed => true
  | .finished _ e => e

/-- The data a unit of work handed back (`crashed` units hand back
nothing: the exception discards the return value). -/
def outcomeData : UnitOutcome → List Record
  | .crashed => []
  | .finished d _ => d

/-- The fan-in loop of `get_all_prof_reviews` (lines 240-253): walk the
futures in submission order; a crashed future adds its professor id to the
errors; a finished future contributes its data and adds the id to the
errors exactly when its error flag is set.  Input: the list of
`(prof_id, outcome)` pairs in submission order.  Output: the
`{"data": ..., "errors": ...}` Collection Result. -/
def get_all_prof_reviews : List (String × UnitOutcome) → List Record × List String
  | [] => ([], [])
  | (pid, .crashed) :: rest =>
    ((get_all_prof_reviews rest).1, pid :: (get_all_prof_reviews rest).2)
  | (pid, .finished d e) :: rest =>
    (d ++ (get_all_prof_reviews rest).1,
      if e then pid :: (get_all_prof_reviews rest).2 else (get_all_prof_reviews rest).2)

/-- The polars `DataFrame.unique()` call applied before writing the output
(lines 169 and 284): remove exact duplicate rows, by full-row equality. -/
def unique (l : List Record) : List Record := l.dedup

/-- The batch loop of `all_prof_reviews` (lines 258-287): slice contiguous
windows of `batch_size` work items, dispatch each window, and concatenate
data and errors across windows (the loop also dispatches one final empty
window, which contributes nothing, before `keep_going` turns false).
Deduplication is not applied here: the source applies `unique` once, after
the loop, to the combined data (lines 283-284). -/
def all_prof_reviews (B : Nat) (hB : 0 < B) :
    List (String × UnitOutcome) → List Record × List String
  | [] => get_all_prof_reviews []
  | u :: rest =>
    let r1 := get_all_prof_reviews ((u :: rest).take B)
    let r2 := all_prof_reviews B hB ((u :: rest).drop B)
    (r1.1 ++ r2.1, r1.2 ++ r2.2)
termination_by l => l.length
decreasing_by
  simp only [List.length_drop, List.length_cons]
  omega

/-- Mock response sequence for the reviews paginator: serve the given
pages in order, with `hasNextPage` true exactly while further pages
remain. -/
def mkReviewEnv (pages : List (List Edge)) (i : Nat) : ReviewResp :=
  match pages[i]? with
  | some p => .okPage p (some (decide (i + 1 < pages.length), ""))
  | none => .fail

/-- Mock response sequence for the professors paginator, analogous to
`mkReviewEnv`. -/
def mkProfEnv (pages : List (List Edge)) (i : Nat) : ProfResp :=
  match pages[i]? with
  | some p => .okPage p (some (decide (i + 1 < pages.length), ""))
  | none => .parseErr

/-- The reshaped record a review edge contributes, when its processing
succeeds. -/
def reviewItem (profId : String) (e : Edge) : Option Record :=
  match processReviewEdge profId e with
  | .ok r => some r
  | .error () => none

/-- The reshaped record a professor edge contributes: `none` both for a
skipped non-Teacher edge and for a raising edge. -/
def profItem (e : Edge) : Option Record :=
  match processProfEdge e with
  | .ok (some r) => some r
  | _ => none

/-- Every edge of the page reshapes without raising. -/
def cleanReviewPage (profId : String) (page : List Edge) : Prop :=
  ∀ e ∈ page, ∃ r, processReviewEdge profId e = Except.ok r

/-- Every edge of the page is processed without raising (reshaped or
skipped). -/
def cleanProfPage (page : List Edge) : Prop :=
  ∀ e ∈ page, ∃ o, processProfEdge e = Except.ok o

/-- Concatenate the items of the served pages, in order. -/
def collectItems (f : List Edge → List Record) : List (List Edge) → List Record
  | [] => []
  | p :: rest => f p ++ collectItems f rest

/-- Does the edge's node carry `__typename == 'Teacher'`? -/
def isTeacherEdge (e : Edge) : Bool :=
  decide (getKey e.node "__typename" = some (Val.prim "Teacher"))

/-- Fields of every review record appended by `get_prof_reviews`: the
`thumbs` field and the optional `teacherNote` field are absent, the parent
professor id is attached as `profId`. -/
def reviewRecordOk (profId : String) (r : Record) : Prop :=
  getKey r "thumbs" = none ∧ getKey r "teacherNote" = none ∧
    getKey r "profId" = some (Val.prim profId)

/-- Fields of every professor record appended by `get_profs`: the nested
`school` object is gone and the promoted flat `schoolId` / `schoolName`
fields are present. -/
def profRecordOk (r : Record) : Prop :=
  getKey r "school" = none ∧ (getKey r "schoolId").isSome = true ∧
    (getKey r "schoolName").isSome = true

/-! Concrete fixtures used by counterexamples and witnesses. -/

/-- A well-formed teacher node as the service returns it. -/
def teacherNode : Record :=
  [("__typename", Val.prim "Teacher"), ("id", Val.prim "T1"),
   ("school", Val.obj [("id", "S1"), ("name", "Uni")])]

/-- The edge wrapping `teacherNode`. -/
def teacherEdge : Edge := ⟨teacherNode⟩

/-- `teacherNode` after the reshaping of `get_profs`. -/
def reshapedTeacher : Record :=
  [("__typename", Val.prim "Teacher"), ("id", Val.prim "T1"),
   ("schoolId", Val.prim "S1"), ("schoolName", Val.prim "Uni")]

/-- An edge whose node is not a Teacher (skipped by `get_profs`). -/
def studentEdge : Edge := ⟨[("__typename", Val.prim "Student"), ("id", Val.prim "X1")]⟩

/-- Profs environment: a good first page announcing a next page, then a
transport error on the second request. -/
def envTransportAfterPage (i : Nat) : ProfResp :=
  if i = 0 then .okPage [teacherEdge] (some (true, "c1")) else .transportErr

/-- A review node carrying a `thumbs` field, as the service returns it. -/
def goodReviewNode : Record := [("id", Val.prim "r1"), ("thumbs", Val.prim "3")]

/-- A review node lacking the `thumbs` field. -/
def badReviewNode : Record := [("id", Val.prim "r2")]

/-- Reviews environment: one page whose second node lacks `thumbs`. -/
def envMissingThumbs (_ : Nat) : ReviewResp :=
  .okPage [⟨goodReviewNode⟩, ⟨badReviewNode⟩] (some (false, ""))

/-- `goodReviewNode` after the reshaping of `get_prof_reviews` for
professor `P1`. -/
def reshapedGoodReview : Record := [("id", Val.prim "r1"), ("profId", Val.prim "P1")]

/-- Dispatcher fixture: one successful unit and one crashed unit. -/
def unitsMixed : List (String × UnitOutcome) :=
  [("a", .finished [reshapedGoodReview] false), ("b", .crashed)]

/-- Orchestrator fixture: two successful units with distinct data. -/
def unitsTwoOk : List (String × UnitOutcome) :=
  [("a", .finished [reshapedGoodReview] false),
   ("b", .finished [reshapedTeacher] false)]

/-! Theorems. -/

theorem getKey_setKey_self : ∀ (l : List (String × α)) (k : String) (v : α),
    getKey (setKey l k v) k = some v
  | [], k, v => by simp [setKey, getKey]
  | (k', v') :: rest, k, v => by
    by_cases h : k' = k
    · simp [setKey, h, getKey]
    · simp [setKey, h, getKey, getKey_setKey_self rest k v]

theorem getKey_setKey_ne {α : Type _} {k k₂ : String} (hk : k ≠ k₂) :
    ∀ (l : List (String × α)) (v : α), getKey (setKey l k₂ v) k = getKey l k
  | [], v => by simp [setKey, getKey, Ne.symm hk]
  | (k', v') :: rest, v => by
    by_cases h : k' = k₂
    · subst h
      simp [setKey, getKey, Ne.symm hk]
    · by_cases h' : k' = k
      · simp [setKey, h, getKey, h', hk]
      · simp [setKey, h, getKey, h', getKey_setKey_ne hk rest v]

theorem getKey_delKey_self : ∀ (l : List (String × α)) (k : String),
    getKey (delKey l k) k = none
  | [], _ => rfl
  | (k', v') :: rest, k => by
    by_cases h : k' = k
    · simp [delKey, h, getKey_delKey_self rest k]
    · simp [delKey, h, getKey, getKey_delKey_self rest k]

theorem getKey_delKey_ne {α : Type _} {k k₂ : String} (hk : k ≠ k₂) :
    ∀ l : List (String × α), getKey (delKey l k₂) k = getKey l k
  | [] => rfl
  | (k', v') :: rest => by
    by_cases h : k' = k₂
    · subst h
      simp [delKey, getKey, Ne.symm hk, getKey_delKey_ne hk rest]
    · by_cases h' : k' = k
      · simp [delKey, h, getKey, h', hk]
      · simp [delKey, h, getKey, h', getKey_delKey_ne hk rest]

theorem getKey_of_hasKey_false {α : Type _} {l : List (String × α)} {k : String}
    (h : hasKey l k = false) : getKey l k = none := by
  cases hg : getKey l k
  · rfl
  · rw [hasKey, hg] at h
    simp at h

/-- C5: the Collector's deduplication is idempotent: a second `unique` pass
changes nothing (hence also not the row count); the output has no two
identical rows, and a row is kept iff it occurs in the input (so two rows
differing in any field are both retained). -/
theorem C5_dedup_idempotent : ∀ l : List Record,
    unique (unique l) = unique l ∧ (unique l).Nodup ∧ ∀ r : Record, r ∈ unique l ↔ r ∈ l := by
  intro l
  exact ⟨List.dedup_idem, List.nodup_dedup l, fun r => List.mem_dedup⟩

/-- C6: a school id whose probe body contains the not-found marker or the
no-ratings marker is classified invalid, `get_profs` then returns the empty
list after zero GraphQL POSTs; absence of both markers classifies the id
as valid. -/
theorem C6_validity_short_circuit :
    ∀ (body : String) (env : Nat → ProfResp) (cap : Option Nat) (fuel : Nat),
      (school_valid body = false → get_profs body env cap fuel = some (Except.ok [], 0)) ∧
      (strContains errMarker.data body.data = false →
        strContains noRatingsMarker.data body.data = false → school_valid body = true) ∧
      ((strContains errMarker.data body.data = true ∨
          strContains noRatingsMarker.data body.data = true) → school_valid body = false) := by
  intro body env cap fuel
  refine ⟨fun h => ?_, fun h1 h2 => ?_, fun h => ?_⟩
  · simp [get_profs, h]
  · simp [school_valid, h1, h2]
  · rcases h with h | h <;> simp [school_valid, h]

/-- C6 witness: a probe body consisting of the no-ratings marker is
classified invalid and short-circuits to the empty result with zero
paginated requests. -/
theorem C6_witness :
    get_profs noRatingsMarker envTransportAfterPage none 3 = some (Except.ok [], 0) :=
  (C6_validity_short_circuit noRatingsMarker envTransportAfterPage none 3).1 (by decide)

/-- C7 counterexample: `get_profs` applies no clamp to the `count` field of
its variables payload; with `page_size = 1001` the request carries a count
above the service maximum of 1000. -/
theorem C7_counterexample :
    profs_request_count 1001 = 1001 ∧ service_max_count < profs_request_count 1001 := by
  exact ⟨rfl, by decide⟩

/-- C7 amended: the reviews paginator clamps its page size to
`min(service max, known review count)`, which never exceeds the service
maximum; the professors paginator sends its `page_size` parameter through
unclamped, and its default (used by every in-repo call) equals the service
maximum. -/
theorem C7_amended : ∀ n p : Nat,
    reviews_request_count n = min service_max_count n ∧
    reviews_request_count n ≤ service_max_count ∧
    profs_request_count p = p ∧
    profs_request_count default_profs_page_size = service_max_count := by
  intro n p
  exact ⟨rfl, Nat.min_le_left _ _, rfl, rfl⟩

/-- C2 counterexample: a transport error on the second request of
`get_profs` (after a first page contributed a record) does not return the
accumulated items with an error flag: the exception escapes the function
(`session.post` sits outside the `try`), discarding the already-reshaped
record of page one. -/
theorem C2_counterexample :
    get_profs "x" envTransportAfterPage none 5 = some (Except.error (), 2) ∧
    processProfEdge teacherEdge = Except.ok (some reshapedTeacher) :=
  ⟨rfl, rfl⟩

/-- C2 amended: on a failing pagination step both paginators stop
immediately with no retry, but only `get_prof_reviews` returns the items
accumulated so far together with an observable error flag; `get_profs`
returns the accumulated items with no error indication on a caught
parse/shape error, and raises (losing the accumulated items) on a
transport error. -/
theorem C2_amended :
    (∀ (env : Nat → ReviewResp) (profId : String) (fuel : Nat) (acc : List Record) (idx : Nat),
      env idx = ReviewResp.fail →
      get_prof_reviews_loop env profId (fuel + 1) acc idx = some ((acc, true), idx + 1)) ∧
    (∀ (env : Nat → ProfResp) (cap : Option Nat) (fuel : Nat) (acc : List Record) (idx psf : Nat),
      env idx = ProfResp.parseErr →
      get_profs_loop env cap (fuel + 1) acc idx psf = some (Except.ok acc, idx + 1)) ∧
    (∀ (env : Nat → ProfResp) (cap : Option Nat) (fuel : Nat) (acc : List Record) (idx psf : Nat),
      env idx = ProfResp.transportErr →
      get_profs_loop env cap (fuel + 1) acc idx psf = some (Except.error (), idx + 1)) := by
  refine ⟨fun env profId fuel acc idx h => ?_,
    fun env cap fuel acc idx psf h => ?_, fun env cap fuel acc idx psf h => ?_⟩ <;>
    simp [get_prof_reviews_loop, get_profs_loop, h]

/-- C2 amended, witness: concrete one-step runs of both paginators on a
failing response. -/
theorem C2_amended_witness :
    get_prof_reviews_loop (fun _ => ReviewResp.fail) "P1" 1 [] 0 = some (([], true), 1) ∧
    get_profs_loop (fun _ => ProfResp.parseErr) none 1 [reshapedTeacher] 3 0 =
      some (Except.ok [reshapedTeacher], 4) ∧
    get_profs_loop (fun _ => ProfResp.transportErr) none 1 [reshapedTeacher] 3 0 =
      some (Except.error (), 4) :=
  ⟨C2_amended.1 _ "P1" 0 [] 0 rfl, C2_amended.2.1 _ none 0 [reshapedTeacher] 3 0 rfl,
    C2_amended.2.2 _ none 0 [reshapedTeacher] 3 0 rfl⟩

/-- C10: one review node lacking the `thumbs` key makes the whole reviews
run report failure: the run stops at that node, the error flag is true,
and the data holds exactly the nodes processed before the offending one
(here the reshaped first node of the same page). -/
theorem C10_missing_thumbs_fails_run :
    get_prof_reviews envMissingThumbs "P1" 3 = some (([reshapedGoodReview], true), 1) ∧
    hasKey badReviewNode "thumbs" = false :=
  ⟨rfl, rfl⟩

theorem dispatcher_errors_iff : ∀ (units : List (String × UnitOutcome)) (pid : String),
    pid ∈ (get_all_prof_reviews units).2 ↔ ∃ u ∈ units, u.1 = pid ∧ isFailed u.2 = true
  | [], pid => by simp [get_all_prof_reviews]
  | (p, o) :: rest, pid => by
    have ih := dispatcher_errors_iff rest pid
    cases o with
    | crashed =>
      rw [get_all_prof_reviews]
      constructor
      · intro h
        rcases List.mem_cons.mp h with h | h
        · exact ⟨(p, .crashed), List.mem_cons_self _ _, h.symm, rfl⟩
        · obtain ⟨u, hu, h1, h2⟩ := ih.mp h
          exact ⟨u, List.mem_cons_of_mem _ hu, h1, h2⟩
      · rintro ⟨u, hu, h1, h2⟩
        rcases List.mem_cons.mp hu with h | h
        · subst h
          exact List.mem_cons.mpr (Or.inl h1.symm)
        · exact List.mem_cons_of_mem _ (ih.mpr ⟨u, h, h1, h2⟩)
    | finished d e =>
      cases e with
      | true =>
        rw [get_all_prof_reviews, if_pos rfl]
        constructor
        · intro h
          rcases List.mem_cons.mp h with h | h
          · exact ⟨(p, .finished d true), List.mem_cons_self _ _, h.symm, rfl⟩
          · obtain ⟨u, hu, h1, h2⟩ := ih.mp h
            exact ⟨u, List.mem_cons_of_mem _ hu, h1, h2⟩
        · rintro ⟨u, hu, h1, h2⟩
          rcases List.mem_cons.mp hu with h | h
          · subst h
            exact List.mem_cons.mpr (Or.inl h1.symm)
          · exact List.mem_cons_of_mem _ (ih.mpr ⟨u, h, h1, h2⟩)
      | false =>
        rw [get_all_prof_reviews, if_neg Bool.false_ne_true]
        constructor
        · intro h
          obtain ⟨u, hu, h1, h2⟩ := ih.mp h
          exact ⟨u, List.mem_cons_of_mem _ hu, h1, h2⟩
        · rintro ⟨u, hu, h1, h2⟩
          rcases List.mem_cons.mp hu with h | h
          · subst h
            simp [isFailed] at h2
          · exact ih.mpr ⟨u, h, h1, h2⟩

theorem dispatcher_success_data :
    ∀ (units : List (String × UnitOutcome)) (u : String × UnitOutcome), u ∈ units →
      isFailed u.2 = false → ∀ r ∈ outcomeData u.2, r ∈ (get_all_prof_reviews units).1
  | [], u => by simp
  | (p, o) :: rest, u => by
    intro hu hok r hr
    rcases List.mem_cons.mp hu with h | h
    · subst h
      cases o with
      | crashed => simp [outcomeData] at hr
      | finished d e =>
        rw [get_all_prof_reviews]
        exact List.mem_append_left _ (by simpa [outcomeData] using hr)
    · have hrec := dispatcher_success_data rest u h hok r hr
      cases o with
      | crashed =>
        rw [get_all_prof_reviews]
        exact hrec
      | finished d e =>
        rw [get_all_prof_reviews]
        exact List.mem_append_right _ hrec

/-- C1: for the Bounded Concurrent Dispatcher `get_all_prof_reviews`, on
any list of work units with their outcomes, the failed-id list is a subset
of the input ids, an id is reported failed exactly when one of its units
raised / timed out or returned with the error flag, and every record of
every successful unit appears in the collected data — independently of
where the failures sit in the list. -/
theorem C1_partial_failure_containment : ∀ units : List (String × UnitOutcome),
    (∀ pid ∈ (get_all_prof_reviews units).2, pid ∈ units.map Prod.fst) ∧
    (∀ pid : String,
      pid ∈ (get_all_prof_reviews units).2 ↔ ∃ u ∈ units, u.1 = pid ∧ isFailed u.2 = true) ∧
    (∀ u ∈ units, isFailed u.2 = false → ∀ r ∈ outcomeData u.2,
      r ∈ (get_all_prof_reviews units).1) := by
  intro units
  refine ⟨fun pid hp => ?_, fun pid => dispatcher_errors_iff units pid,
    fun u hu hok r hr => dispatcher_success_data units u hu hok r hr⟩
  obtain ⟨u, hu, h1, _⟩ := (dispatcher_errors_iff units pid).mp hp
  exact h1 ▸ List.mem_map_of_mem Prod.fst hu

/-- C1 witness: with one successful and one crashed unit, the crashed id
is reported failed and the successful unit's record is collected. -/
theorem C1_witness :
    "b" ∈ (get_all_prof_reviews unitsMixed).2 ∧
    reshapedGoodReview ∈ (get_all_prof_reviews unitsMixed).1 :=
  ⟨((C1_partial_failure_containment unitsMixed).2.1 "b").mpr
      ⟨("b", .crashed), by simp [unitsMixed], rfl, rfl⟩,
    (C1_partial_failure_containment unitsMixed).2.2
      ("a", .finished [reshapedGoodReview] false) (by simp [unitsMixed]) rfl
      reshapedGoodReview (by simp [outcomeData])⟩

theorem dispatch_append (a b : List (String × UnitOutcome)) :
    get_all_prof_reviews (a ++ b) =
      ((get_all_prof_reviews a).1 ++ (get_all_prof_reviews b).1,
        (get_all_prof_reviews a).2 ++ (get_all_prof_reviews b).2) := by
  induction a with
  | nil => simp [get_all_prof_reviews]
  | cons u rest ih =>
    obtain ⟨pid, o⟩ := u
    cases o with
    | crashed => simp [get_all_prof_reviews, ih]
    | finished d e =>
      cases e <;> simp [get_all_prof_reviews, ih]

theorem orch_eq_dispatch (B : Nat) (hB : 0 < B) :
    ∀ units : List (String × UnitOutcome),
      all_prof_reviews B hB units = get_all_prof_reviews units := by
  have key : ∀ (n : Nat) (units : List (String × UnitOutcome)), units.length ≤ n →
      all_prof_reviews B hB units = get_all_prof_reviews units := by
    intro n
    induction n with
    | zero =>
      intro units h
      have hnil : units = [] := List.length_eq_zero.mp (Nat.le_zero.mp h)
      subst hnil
      rw [all_prof_reviews]
    | succ n ih =>
      intro units h
      cases units with
      | nil => rw [all_prof_reviews]
      | cons u rest =>
        simp only [List.length_cons] at h
        rw [all_prof_reviews]
        rw [ih ((u :: rest).drop B) (by simp only [List.length_drop, List.length_cons]; omega)]
        conv_rhs => rw [← List.take_append_drop B (u :: rest)]
        rw [dispatch_append]
  exact fun units => key units.length units le_rfl

/-- C4: running the Batch Orchestrator `all_prof_reviews` with batch size
`B < M` over a work list of size `M`, absent any failing unit, yields after
the single final deduplication the same rows as dispatching the whole list
as one batch; the model applies `unique` once to the combined data, as the
source does (per-batch deduplication is commented out in the source). -/
theorem C4_batch_equivalence :
    ∀ (units : List (String × UnitOutcome)) (B : Nat) (hB : 0 < B),
      B < units.length → (∀ u ∈ units, isFailed u.2 = false) →
      unique (all_prof_reviews B hB units).1 = unique (get_all_prof_reviews units).1 := by
  intro units B hB _hBM _hok
  rw [orch_eq_dispatch]

/-- C4 witness: two successful units split into batches of size one give
the same deduplicated rows as one batch of size two. -/
theorem C4_witness :
    unique (all_prof_reviews 1 Nat.one_pos unitsTwoOk).1 =
      unique (get_all_prof_reviews unitsTwoOk).1 :=
  C4_batch_equivalence unitsTwoOk 1 Nat.one_pos (by simp [unitsTwoOk]) (by decide)

theorem processReviewNode_fields {profId : String} {node r : Record}
    (h : processReviewNode profId node = Except.ok r) : reviewRecordOk profId r := by
  simp only [processReviewNode] at h
  by_cases ht : hasKey (setKey node "profId" (Val.prim profId)) "thumbs" = true
  · rw [if_pos ht] at h
    injection h with h
    subst h
    unfold reviewRecordOk
    by_cases h2 : hasKey (delKey (setKey node "profId" (Val.prim profId)) "thumbs")
        "teacherNote" = true
    · rw [if_pos h2]
      refine ⟨?_, ?_, ?_⟩
      · rw [getKey_delKey_ne (by decide), getKey_delKey_self]
      · rw [getKey_delKey_self]
      · rw [getKey_delKey_ne (by decide), getKey_delKey_ne (by decide), getKey_setKey_self]
    · rw [if_neg h2]
      simp only [Bool.not_eq_true] at h2
      refine ⟨?_, ?_, ?_⟩
      · rw [getKey_delKey_self]
      · exact getKey_of_hasKey_false h2
      · rw [getKey_delKey_ne (by decide), getKey_setKey_self]
  · rw [if_neg ht] at h
    exact absurd h (by simp)

theorem processProfEdge_fields {e : Edge} {r : Record}
    (h : processProfEdge e = Except.ok (some r)) : profRecordOk r := by
  simp only [processProfEdge] at h
  rcases htv : getKey e.node "__typename" with _ | tv
  · simp [htv] at h
  · simp only [htv] at h
    by_cases hteq : tv = Val.prim "Teacher"
    · simp only [if_pos hteq] at h
      rcases hsch : getKey e.node "school" with _ | v
      · simp [hsch] at h
      · cases v with
        | prim s => simp [hsch] at h
        | obj sch =>
          simp only [hsch] at h
          rcases hid : getKey sch "id" with _ | sid
          · simp [hid] at h
          · rcases hname : getKey sch "name" with _ | sname
            · simp [hid, hname] at h
            · simp only [hid, hname] at h
              injection h with h
              injection h with h
              subst h
              unfold profRecordOk
              refine ⟨?_, ?_, ?_⟩
              · rw [getKey_delKey_self]
              · rw [getKey_delKey_ne (by decide), getKey_setKey_ne (by decide),
                  getKey_setKey_self]
                rfl
              · rw [getKey_delKey_ne (by decide), getKey_setKey_self]
                rfl
    · simp [if_neg hteq] at h

theorem processReviewEdges_mem (profId : String) :
    ∀ (edges : List Edge) (acc : List Record) (r : Record),
      r ∈ (processReviewEdges profId acc edges).1 →
      r ∈ acc ∨ ∃ e ∈ edges, processReviewEdge profId e = Except.ok r
  | [], acc, r => by
    intro hr
    simp only [processReviewEdges] at hr
    exact Or.inl hr
  | e :: rest, acc, r => by
    intro hr
    rcases he : processReviewEdge profId e with u | r'
    · simp only [processReviewEdges, he] at hr
      exact Or.inl hr
    · simp only [processReviewEdges, he] at hr
      rcases processReviewEdges_mem profId rest (acc ++ [r']) r hr with hacc | ⟨e', he', hok⟩
      · rcases List.mem_append.mp hacc with h | h
        · exact Or.inl h
        · rw [List.mem_singleton] at h
          subst h
          exact Or.inr ⟨e, List.mem_cons_self _ _, he⟩
      · exact Or.inr ⟨e', List.mem_cons_of_mem _ he', hok⟩

theorem processProfEdges_mem :
    ∀ (edges : List Edge) (acc out : List Record),
      processProfEdges acc edges = Except.ok out →
      ∀ r ∈ out, r ∈ acc ∨ ∃ e ∈ edges, processProfEdge e = Except.ok (some r)
  | [], acc, out => by
    intro h r hr
    simp only [processProfEdges] at h
    injection h with h
    subst h
    exact Or.inl hr
  | e :: rest, acc, out => by
    intro h r hr
    rcases he : processProfEdge e with u | o
    · simp [processProfEdges, he] at h
    · cases o with
      | none =>
        simp only [processProfEdges, he] at h
        rcases processProfEdges_mem rest acc out h r hr with h' | ⟨e', he', hok⟩
        · exact Or.inl h'
        · exact Or.inr ⟨e', List.mem_cons_of_mem _ he', hok⟩
      | some r' =>
        simp only [processProfEdges, he] at h
        rcases processProfEdges_mem rest (acc ++ [r']) out h r hr with h' | ⟨e', he', hok⟩
        · rcases List.mem_append.mp h' with h'' | h''
          · exact Or.inl h''
          · rw [List.mem_singleton] at h''
            subst h''
            exact Or.inr ⟨e, List.mem_cons_self _ _, he⟩
        · exact Or.inr ⟨e', List.mem_cons_of_mem _ he', hok⟩

theorem reviews_loop_fields (env : Nat → ReviewResp) (profId : String) :
    ∀ (fuel : Nat) (acc : List Record) (idx : Nat) (res : (List Record × Bool) × Nat),
      (∀ r ∈ acc, reviewRecordOk profId r) →
      get_prof_reviews_loop env profId fuel acc idx = some res →
      ∀ r ∈ res.1.1, reviewRecordOk profId r := by
  intro fuel
  induction fuel with
  | zero =>
    intro acc idx res _ h
    simp [get_prof_reviews_loop] at h
  | succ fuel ih =>
    intro acc idx res hacc h r hr
    have hstep : ∀ (edges : List Edge), ∀ r' ∈ (processReviewEdges profId acc edges).1,
        reviewRecordOk profId r' := by
      intro edges r' hr'
      rcases processReviewEdges_mem profId edges acc r' hr' with h' | ⟨e, _, hok⟩
      · exact hacc r' h'
      · exact processReviewNode_fields hok
    rcases henv : env idx with _ | ⟨edges, pageInfo⟩
    · simp only [get_prof_reviews_loop, henv] at h
      injection h with h
      subst h
      exact hacc r hr
    · simp only [get_prof_reviews_loop, henv] at h
      rcases hpe : processReviewEdges profId acc edges with ⟨acc', errored⟩
      simp only [hpe] at h
      have hacc' : ∀ r' ∈ acc', reviewRecordOk profId r' := by
        intro r' h'
        exact hstep edges r' (by rw [hpe]; exact h')
      cases errored with
      | true =>
        injection h with h
        subst h
        exact hacc' r hr
      | false =>
        rcases pageInfo with _ | ⟨hasNext, endCur⟩
        · injection h with h
          subst h
          exact hacc' r hr
        · cases hasNext with
          | true => exact ih acc' (idx + 1) res hacc' h r hr
          | false =>
            injection h with h
            subst h
            exact hacc' r hr

theorem profs_loop_fields (env : Nat → ProfResp) (cap : Option Nat) :
    ∀ (fuel : Nat) (acc : List Record) (idx psf : Nat) (out : List Record) (reqs : Nat),
      (∀ r ∈ acc, profRecordOk r) →
      get_profs_loop env cap fuel acc idx psf = some (Except.ok out, reqs) →
      ∀ r ∈ out, profRecordOk r := by
  intro fuel
  induction fuel with
  | zero =>
    intro acc idx psf out reqs _ h
    simp [get_profs_loop] at h
  | succ fuel ih =>
    intro acc idx psf out reqs hacc h r hr
    rcases henv : env idx with _ | _ | ⟨edges, pageInfo⟩
    · simp [get_profs_loop, henv] at h
    · simp only [get_profs_loop, henv] at h
      injection h with h
      injection h with h1 h2
      injection h1 with h1
      subst h1
      exact hacc r hr
    · simp only [get_profs_loop, henv] at h
      rcases hpe : processProfEdges acc edges with u | acc'
      · simp [hpe] at h
      · have hacc' : ∀ r' ∈ acc', profRecordOk r' := by
          intro r' h'
          rcases processProfEdges_mem edges acc acc' hpe r' h' with h'' | ⟨e, _, hok⟩
          · exact hacc r' h''
          · exact processProfEdge_fields hok
        rcases pageInfo with _ | ⟨hasNext, endCur⟩
        · simp [hpe] at h
        · simp only [hpe] at h
          by_cases hcap : capReached cap (psf + 1) = true
          · rw [if_pos hcap] at h
            injection h with h
            injection h with h1 h2
            injection h1 with h1
            subst h1
            exact hacc' r hr
          · rw [if_neg hcap] at h
            cases hasNext with
            | true => exact ih acc' (idx + 1) (psf + 1) out reqs hacc' h r hr
            | false =>
              injection h with h
              injection h with h1 h2
              injection h1 with h1
              subst h1
              exact hacc' r hr

/-- C8: every record the paginators append is reshaped: review records
carry `profId` and have lost `thumbs` and (when present) `teacherNote`;
professor records have lost the nested `school` object and gained the flat
`schoolId` and `schoolName` fields. -/
theorem C8_reshaping :
    (∀ (env : Nat → ReviewResp) (profId : String) (fuel : Nat)
      (res : (List Record × Bool) × Nat),
      get_prof_reviews env profId fuel = some res → ∀ r ∈ res.1.1, reviewRecordOk profId r) ∧
    (∀ (body : String) (env : Nat → ProfResp) (cap : Option Nat) (fuel : Nat)
      (out : List Record) (reqs : Nat),
      get_profs body env cap fuel = some (Except.ok out, reqs) → ∀ r ∈ out, profRecordOk r) := by
  constructor
  · intro env profId fuel res h
    exact reviews_loop_fields env profId fuel [] 0 res (by simp) h
  · intro body env cap fuel out reqs h
    unfold get_profs at h
    by_cases hv : school_valid body = true
    · rw [if_pos hv] at h
      exact profs_loop_fields env cap fuel [] 0 0 out reqs (by simp) h
    · rw [if_neg hv] at h
      injection h with h
      injection h with h1 h2
      injection h1 with h1
      subst h1
      intro r hr
      simp at hr

/-- C8 witness: the reshaped records of two concrete successful runs
satisfy the field contracts. -/
theorem C8_witness :
    reviewRecordOk "P1" reshapedGoodReview ∧ profRecordOk reshapedTeacher :=
  ⟨C8_reshaping.1 envMissingThumbs "P1" 3 (([reshapedGoodReview], true), 1) rfl
      reshapedGoodReview (by simp),
    C8_reshaping.2 "" (mkProfEnv [[teacherEdge]]) none 1 [reshapedTeacher] 1 rfl
      reshapedTeacher (by simp)⟩

theorem teacher_of_ok_some {e : Edge} {r : Record}
    (h : processProfEdge e = Except.ok (some r)) : isTeacherEdge e = true := by
  simp only [processProfEdge] at h
  rcases htv : getKey e.node "__typename" with _ | tv
  · simp [htv] at h
  · simp only [htv] at h
    by_cases hteq : tv = Val.prim "Teacher"
    · simp [isTeacherEdge, htv, hteq]
    · simp [if_neg hteq] at h

theorem processProfEdges_filter :
    ∀ (edges : List Edge) (acc : List Record),
      (∀ e ∈ edges, (getKey e.node "__typename").isSome = true) →
      processProfEdges acc edges = processProfEdges acc (List.filter isTeacherEdge edges)
  | [], acc => by
    intro _
    rfl
  | e :: rest, acc => by
    intro h
    have hrest : ∀ e' ∈ rest, (getKey e'.node "__typename").isSome = true :=
      fun e' he' => h e' (List.mem_cons_of_mem _ he')
    have he := h e (List.mem_cons_self _ _)
    rcases htv : getKey e.node "__typename" with _ | tv
    · rw [htv] at he
      simp at he
    · by_cases hteq : tv = Val.prim "Teacher"
      · have hT : isTeacherEdge e = true := by simp [isTeacherEdge, htv, hteq]
        rw [List.filter_cons_of_pos hT]
        rcases hpe : processProfEdge e with u | o
        · simp [processProfEdges, hpe]
        · cases o with
          | none =>
            simp only [processProfEdges, hpe]
            exact processProfEdges_filter rest acc hrest
          | some r =>
            simp only [processProfEdges, hpe]
            exact processProfEdges_filter rest (acc ++ [r]) hrest
      · have hnone : processProfEdge e = Except.ok none := by
          simp [processProfEdge, htv, hteq]
        have hF : isTeacherEdge e = false := by simp [isTeacherEdge, htv, hteq]
        rw [List.filter_cons_of_neg (by simp [hF])]
        simp only [processProfEdges, hnone]
        exact processProfEdges_filter rest acc hrest

/-- C9: edges whose node's `__typename` is not `Teacher` are silently
skipped by the professors page processing: processing a page equals
processing its Teacher-typed edges only (given every node carries a
`__typename`, since a missing one raises), and every record produced
either was already accumulated or is the reshape of some Teacher-typed
edge of the page. -/
theorem C9_non_teacher_edges_skipped : ∀ (acc : List Record) (edges : List Edge),
    ((∀ e ∈ edges, (getKey e.node "__typename").isSome = true) →
      processProfEdges acc edges = processProfEdges acc (List.filter isTeacherEdge edges)) ∧
    (∀ out : List Record, processProfEdges acc edges = Except.ok out →
      ∀ r ∈ out, r ∈ acc ∨ ∃ e ∈ edges, isTeacherEdge e = true ∧
        processProfEdge e = Except.ok (some r)) := by
  intro acc edges
  refine ⟨fun h => processProfEdges_filter edges acc h, fun out h r hr => ?_⟩
  rcases processProfEdges_mem edges acc out h r hr with h' | ⟨e, he, hok⟩
  · exact Or.inl h'
  · exact Or.inr ⟨e, he, teacher_of_ok_some hok, hok⟩

/-- C9 witness: a page holding one Teacher edge and one Student edge is
processed exactly like the page with the Student edge removed. -/
theorem C9_witness :
    processProfEdges [] [teacherEdge, studentEdge] =
      processProfEdges [] (List.filter isTeacherEdge [teacherEdge, studentEdge]) :=
  (C9_non_teacher_edges_skipped [] [teacherEdge, studentEdge]).1 (by decide)

theorem processReviewEdges_clean (profId : String) :
    ∀ (page : List Edge) (acc : List Record), cleanReviewPage profId page →
      processReviewEdges profId acc page =
        (acc ++ List.filterMap (reviewItem profId) page, false)
  | [], acc => by
    intro _
    simp [processReviewEdges]
  | e :: rest, acc => by
    intro h
    obtain ⟨r, hr⟩ := h e (List.mem_cons_self _ _)
    have hrest : cleanReviewPage profId rest := fun e' he' => h e' (List.mem_cons_of_mem _ he')
    simp only [processReviewEdges, hr]
    rw [processReviewEdges_clean profId rest (acc ++ [r]) hrest]
    have hitem : reviewItem profId e = some r := by simp [reviewItem, hr]
    simp [List.filterMap_cons, hitem]

theorem processProfEdges_clean :
    ∀ (page : List Edge) (acc : List Record), cleanProfPage page →
      processProfEdges acc page = Except.ok (acc ++ List.filterMap profItem page)
  | [], acc => by
    intro _
    simp [processProfEdges]
  | e :: rest, acc => by
    intro h
    obtain ⟨o, ho⟩ := h e (List.mem_cons_self _ _)
    have hrest : cleanProfPage rest := fun e' he' => h e' (List.mem_cons_of_mem _ he')
    cases o with
    | none =>
      simp only [processProfEdges, ho]
      rw [processProfEdges_clean rest acc hrest]
      have hitem : profItem e = none := by simp [profItem, ho]
      simp [List.filterMap_cons, hitem]
    | some r =>
      simp only [processProfEdges, ho]
      rw [processProfEdges_clean rest (acc ++ [r]) hrest]
      have hitem : profItem e = some r := by simp [profItem, ho]
      simp [List.filterMap_cons, hitem]

theorem mkReviewEnv_zero (p : List Edge) (rest : List (List Edge)) :
    mkReviewEnv (p :: rest) 0 = ReviewResp.okPage p (some (decide (0 < rest.length), "")) := by
  simp only [mkReviewEnv, List.getElem?_cons_zero, List.length_cons]
  have hd : decide (0 + 1 < rest.length + 1) = decide (0 < rest.length) :=
    decide_eq_decide.mpr (by omega)
  rw [hd]

theorem mkReviewEnv_cons (p : List Edge) (rest : List (List Edge)) (j : Nat) :
    mkReviewEnv (p :: rest) (j + 1) = mkReviewEnv rest j := by
  simp only [mkReviewEnv, List.getElem?_cons_succ, List.length_cons]
  rcases h : rest[j]? with _ | q
  · rfl
  · have hd : decide (j + 1 + 1 < rest.length + 1) = decide (j + 1 < rest.length) :=
      decide_eq_decide.mpr (by omega)
    rw [hd]

theorem mkProfEnv_zero (p : List Edge) (rest : List (List Edge)) :
    mkProfEnv (p :: rest) 0 = ProfResp.okPage p (some (decide (0 < rest.length), "")) := by
  simp only [mkProfEnv, List.getElem?_cons_zero, List.length_cons]
  have hd : decide (0 + 1 < rest.length + 1) = decide (0 < rest.length) :=
    decide_eq_decide.mpr (by omega)
  rw [hd]

theorem mkProfEnv_cons (p : List Edge) (rest : List (List Edge)) (j : Nat) :
    mkProfEnv (p :: rest) (j + 1) = mkProfEnv rest j := by
  simp only [mkProfEnv, List.getElem?_cons_succ, List.length_cons]
  rcases h : rest[j]? with _ | q
  · rfl
  · have hd : decide (j + 1 + 1 < rest.length + 1) = decide (j + 1 < rest.length) :=
      decide_eq_decide.mpr (by omega)
    rw [hd]

theorem reviews_loop_clean (profId : String) :
    ∀ (pages : List (List Edge)) (env : Nat → ReviewResp) (acc : List Record)
      (idx extra : Nat), pages ≠ [] → (∀ p ∈ pages, cleanReviewPage profId p) →
      (∀ j, env (idx + j) = mkReviewEnv pages j) →
      get_prof_reviews_loop env profId (pages.length + extra) acc idx =
        some ((acc ++ collectItems (fun p => List.filterMap (reviewItem profId) p) pages,
          false), idx + pages.length) := by
  intro pages
  induction pages with
  | nil =>
    intro env acc idx extra h
    exact absurd rfl h
  | cons p rest ih =>
    intro env acc idx extra _ hclean henv
    have henv0 : env idx = ReviewResp.okPage p (some (decide (0 < rest.length), "")) := by
      have h0 := henv 0
      rwa [Nat.add_zero, mkReviewEnv_zero] at h0
    have hfuel : (p :: rest).length + extra = (rest.length + extra) + 1 := by
      simp only [List.length_cons]
      omega
    rw [hfuel]
    simp only [get_prof_reviews_loop, henv0,
      processReviewEdges_clean profId p acc (hclean p (List.mem_cons_self _ _))]
    cases rest with
    | nil =>
      simp [collectItems]
    | cons q rs =>
      have hd : decide (0 < (q :: rs).length) = true := by simp
      rw [hd]
      have henv' : ∀ j, env (idx + 1 + j) = mkReviewEnv (q :: rs) j := by
        intro j
        have hj := henv (j + 1)
        rw [mkReviewEnv_cons] at hj
        rwa [show idx + (j + 1) = idx + 1 + j by omega] at hj
      rw [ih env (acc ++ List.filterMap (reviewItem profId) p) (idx + 1) extra
        (by simp) (fun p' hp' => hclean p' (List.mem_cons_of_mem _ hp')) henv']
      simp only [collectItems, List.append_assoc, List.length_cons]
      rw [show idx + 1 + (rs.length + 1) = idx + (rs.length + 1 + 1) by omega]
      simp

theorem profs_loop_clean :
    ∀ (pages : List (List Edge)) (env : Nat → ProfResp) (acc : List Record)
      (idx psf extra : Nat), pages ≠ [] → (∀ p ∈ pages, cleanProfPage p) →
      (∀ j, env (idx + j) = mkProfEnv pages j) →
      get_profs_loop env none (pages.length + extra) acc idx psf =
        some (Except.ok (acc ++ collectItems (fun p => List.filterMap profItem p) pages),
          idx + pages.length) := by
  intro pages
  induction pages with
  | nil =>
    intro env acc idx psf extra h
    exact absurd rfl h
  | cons p rest ih =>
    intro env acc idx psf extra _ hclean henv
    have henv0 : env idx = ProfResp.okPage p (some (decide (0 < rest.length), "")) := by
      have h0 := henv 0
      rwa [Nat.add_zero, mkProfEnv_zero] at h0
    have hfuel : (p :: rest).length + extra = (rest.length + extra) + 1 := by
      simp only [List.length_cons]
      omega
    rw [hfuel]
    simp only [get_profs_loop, henv0,
      processProfEdges_clean p acc (hclean p (List.mem_cons_self _ _)), capReached]
    cases rest with
    | nil =>
      simp [collectItems]
    | cons q rs =>
      have hd : decide (0 < (q :: rs).length) = true := by simp
      rw [hd]
      have henv' : ∀ j, env (idx + 1 + j) = mkProfEnv (q :: rs) j := by
        intro j
        have hj := henv (j + 1)
        rw [mkProfEnv_cons] at hj
        rwa [show idx + (j + 1) = idx + 1 + j by omega] at hj
      rw [ih env (acc ++ List.filterMap profItem p) (idx + 1) (psf + 1) extra
        (by simp) (fun p' hp' => hclean p' (List.mem_cons_of_mem _ hp')) henv']
      simp only [collectItems, List.append_assoc, List.length_cons]
      rw [show idx + 1 + (rs.length + 1) = idx + (rs.length + 1 + 1) by omega]
      simp

/-- C3: over any mock response sequence built from a finite page list
(`hasNextPage` turns false exactly on the last page), both pagination
loops terminate for every sufficiently large fuel, issue exactly one
request per page, and return without error exactly the concatenation of
the items of all served pages, each served item contributed exactly once
by its page. -/
theorem C3_pagination_termination :
    (∀ (profId : String) (pages : List (List Edge)) (extra : Nat), pages ≠ [] →
      (∀ p ∈ pages, cleanReviewPage profId p) →
      get_prof_reviews (mkReviewEnv pages) profId (pages.length + extra) =
        some ((collectItems (fun p => List.filterMap (reviewItem profId) p) pages, false),
          pages.length)) ∧
    (∀ (pages : List (List Edge)) (extra : Nat), pages ≠ [] →
      (∀ p ∈ pages, cleanProfPage p) →
      get_profs "" (mkProfEnv pages) none (pages.length + extra) =
        some (Except.ok (collectItems (fun p => List.filterMap profItem p) pages),
          pages.length)) := by
  constructor
  · intro profId pages extra hne hclean
    have h := reviews_loop_clean profId pages (mkReviewEnv pages) [] 0 extra hne hclean
      (fun j => by rw [Nat.zero_add])
    simpa using h
  · intro pages extra hne hclean
    unfold get_profs
    rw [if_pos (by decide : school_valid "" = true)]
    have h := profs_loop_clean pages (mkProfEnv pages) [] 0 0 extra hne hclean
      (fun j => by rw [Nat.zero_add])
    simpa using h

/-- C3 witness: concrete one-page runs of both paginators terminate with
the page's reshaped items, no error, and one request. -/
theorem C3_witness :
    get_prof_reviews (mkReviewEnv [[Edge.mk goodReviewNode]]) "P1" 1 =
      some (([reshapedGoodReview], false), 1) ∧
    get_profs "" (mkProfEnv [[teacherEdge]]) none 1 = some (Except.ok [reshapedTeacher], 1) := by
  constructor
  · have h := C3_pagination_termination.1 "P1" [[Edge.mk goodReviewNode]] 0 (by simp)
      (by
        intro p hp
        rw [List.mem_singleton] at hp
        subst hp
        intro e' he'
        rw [List.mem_singleton] at he'
        subst he'
        exact ⟨reshapedGoodReview, rfl⟩)
    exact h.trans (by rfl)
  · have h := C3_pagination_termination.2 [[teacherEdge]] 0 (by simp)
      (by
        intro p hp
        rw [List.mem_singleton] at hp
        subst hp
        intro e' he'
        rw [List.mem_singleton] at he'
        subst he'
        exact ⟨some reshapedTeacher, rfl⟩)
    exact h.trans (by rfl)

end RMP
